import Mathlib

/-!
Verification development for the ralph-loop stop hook
(`src/plugins/ralph-loop/hooks/stop-hook.sh`).

The script is a bash program operating on text files.  We embed it
shallowly: a file is a list of newline-free lines (`List String`), the
hook-input payload is a single-line string, and the filesystem visible to
the hook is a lookup function from paths to optional file contents.  Each
text-processing pipeline of the script (sed ranges, grep filters, sed
substitutions, awk body extraction, tr, parameter expansion) is translated
into an executable Lean function whose semantics follows the POSIX tool it
embeds, including greedy (leftmost-longest) regex matching for sed and the
`set -euo pipefail` abort behaviour when a `grep` in a command substitution
finds no match.
-/

namespace RalphLoop

/-- Characters of the POSIX `[:space:]` class, used by `tr -d '[:space:]'`
and by the `[[:space:]]*` parts of the transcript-path regex. -/
def isPosixSpace (c : Char) : Bool :=
  c == ' ' || c == '\t' || c == '\n' || c == '\r' || c == '\x0b' || c == '\x0c'

/-- Embedding of `grep '^PAT'` line matching: the line starts with the
given literal pattern. -/
def strStarts (p s : String) : Bool :=
  p.data.isPrefixOf s.data

/-- Drop trailing empty lines: the effect of command substitution
`$(...)` stripping all trailing newlines from a multi-line result,
modelled on the line list before joining. -/
def dropTrailingEmpties (ls : List String) : List String :=
  (ls.reverse.dropWhile (fun l => l == "")).reverse

/-- Join lines with a single newline character. -/
def joinNl : List String → String
  | [] => ""
  | [l] => l
  | l :: ls => l ++ "\n" ++ joinNl ls

/-- Value of a command substitution whose command prints the given lines:
trailing newlines (hence trailing empty lines) are stripped, interior
newlines kept. -/
def joinCmdSub (ls : List String) : String :=
  joinNl (dropTrailingEmpties ls)

/-- Embedding of `sed -n '/^---$/,/^---$/{ /^---$/d; p; }'`: print the
lines strictly inside each range delimited by `---` lines.  The boolean
state records whether we are currently inside a range; a range that is
still open at end of input prints through to the end. -/
def fmAux : Bool → List String → List String
  | _, [] => []
  | false, l :: ls => if l == "---" then fmAux true ls else fmAux false ls
  | true, l :: ls => if l == "---" then fmAux false ls else l :: fmAux true ls

/-- The `FRONTMATTER` variable of the script (line 24). -/
def frontmatter (file : List String) : List String :=
  fmAux false file

/-- Embedding of `grep '^KEY:'` over the frontmatter lines. -/
def fieldLines (key : String) (fm : List String) : List String :=
  fm.filter (fun l => strStarts (key ++ ":") l)

/-- Embedding of `sed 's/KEY: *//'` on a line known to start with `KEY:`:
the leftmost match removes the literal `KEY:` and the maximal run of
following spaces (spaces only, not tabs). -/
def stripKey (key : String) (l : String) : String :=
  ⟨(l.data.drop (key.data.length + 1)).dropWhile (fun c => c == ' ')⟩

/-- The `ITERATION` / `MAX_ITERATIONS` extraction (script lines 25-26):
grep the key, strip it per line, join as a command substitution. -/
def fieldValue (key : String) (fm : List String) : String :=
  joinCmdSub ((fieldLines key fm).map (stripKey key))

/-- Embedding of `sed 's/^"\(.*\)"$/\1/'`: strip exactly one layer of
surrounding double quotes when the line both starts and ends with one
(and has length at least 2, since the two anchors need distinct
characters). -/
def stripQuotes (s : String) : String :=
  if 2 ≤ s.data.length ∧ s.data.head? = some '"' ∧ s.data.getLast? = some '"' then
    ⟨(s.data.drop 1).dropLast⟩
  else s

/-- The `COMPLETION_PROMISE` extraction (script line 28). -/
def promiseValue (fm : List String) : String :=
  joinCmdSub ((fieldLines "completion_promise" fm).map
    (fun l => stripQuotes (stripKey "completion_promise" l)))

/-- Embedding of the bash test `[[ $s =~ ^[0-9]+$ ]]`. -/
def isDigitStr (s : String) : Bool :=
  !s.data.isEmpty && s.data.all Char.isDigit

/-- Unbounded base-10 reading of an all-digits string (the mathematical
value of the numeral; bash arithmetic does NOT use this directly, see
`bashNumVal`). -/
def natOfDigits (s : String) : Nat :=
  s.data.foldl (fun n c => 10 * n + (c.toNat - 48)) 0

/-- Unbounded base-8 reading of an all-digits string. -/
def octOfDigits (s : String) : Nat :=
  s.data.foldl (fun n c => 8 * n + (c.toNat - 48)) 0

/-- Wrap an integer into the signed 64-bit range, as bash's intmax_t
arithmetic does (verified: `$((9223372036854775807 + 1))` is
`-9223372036854775808` and `$((99999999999999999999999999))` is
`-2537764290115403777` in GNU bash; digit accumulation wraps, which
equals wrapping the unbounded value). -/
def wrap64 (n : Int) : Int :=
  let r := n % (18446744073709551616 : Int)
  if r < (9223372036854775808 : Int) then r else r - (18446744073709551616 : Int)

/-- Bash arithmetic evaluation of an all-digits numeral, as performed by
`[[ -gt / -ge ]]` and `$(( ))`: a numeral of length at least two starting
with `0` is read as octal — a digit `8` or `9` there is an arithmetic
error (`value too great for base`, modelled as `none`) — and values are
signed 64-bit with wraparound. -/
def bashNumVal (s : String) : Option Int :=
  if 2 ≤ s.data.length ∧ s.data.head? = some '0' then
    if s.data.all (fun c => c.toNat - 48 < 8) then
      some (wrap64 (Int.ofNat (octOfDigits s)))
    else none
  else
    some (wrap64 (Int.ofNat (natOfDigits s)))

/-- The cap condition of script line 54,
`[[ $MAX_ITERATIONS -gt 0 ]] && [[ $ITERATION -ge $MAX_ITERATIONS ]]`,
under bash numeral evaluation.  An arithmetic error inside `[[ ]]` makes
that test fail with a non-zero status (verified; inside an `if` condition
this does not abort the script), so an unevaluable operand makes the
whole conjunction false. -/
def capCheck (iterStr maxStr : String) : Bool :=
  match bashNumVal maxStr with
  | none => false
  | some vm =>
    if vm ≤ 0 then false
    else
      match bashNumVal iterStr with
      | none => false
      | some vi => decide (vm ≤ vi)

/-- Embedding of `awk '/^---$/{i++; next} i>=2'` (script line 144): count
`---` lines, skip every `---` line, print the remaining lines once at
least two `---` lines have been seen. -/
def awkAux : Nat → List String → List String
  | _, [] => []
  | i, l :: ls =>
    if l == "---" then awkAux (i + 1) ls
    else if 2 ≤ i then l :: awkAux i ls
    else awkAux i ls

/-- The body lines selected by the awk prompt extraction. -/
def awkBody (file : List String) : List String :=
  awkAux 0 file

/-- The `PROMPT_TEXT` variable: awk output captured by a command
substitution. -/
def promptText (file : List String) : String :=
  joinCmdSub (awkBody file)

/-- Try to match the extended regex
`"transcript_path"[[:space:]]*:[[:space:]]*"[^"]*"` at the head of the
character list; on success return the captured quoted value together with
the characters following the whole match (script line 61). -/
def tpMatchAt (cs : List Char) : Option (List Char × List Char) :=
  if ("\"transcript_path\"").data.isPrefixOf cs then
    match (cs.drop 17).dropWhile isPosixSpace with
    | ':' :: r2 =>
      match r2.dropWhile isPosixSpace with
      | '"' :: r3 =>
        let v := r3.takeWhile (fun c => !(c == '"'))
        match r3.dropWhile (fun c => !(c == '"')) with
        | '"' :: rest => some (v, rest)
        | _ => none
      | _ => none
    | _ => none
  else none

/-- All matches of the transcript-path regex, leftmost first and
non-overlapping, as produced by `grep -oE` (each match on its own output
line, already reduced by the following sed to the captured value).  The
fuel argument bounds the scan; it starts at one more than the input
length. -/
def tpScanAux : Nat → List Char → List String
  | 0, _ => []
  | _, [] => []
  | fuel + 1, c :: cs =>
    match tpMatchAt (c :: cs) with
    | some (v, rest) => (⟨v⟩ : String) :: tpScanAux fuel rest
    | none => tpScanAux fuel cs

/-- The `TRANSCRIPT_PATH` extraction (script line 61).  When grep finds no
match the pipeline fails and, under `set -euo pipefail`, the script exits
with the pipeline status: modelled as `none`.  Otherwise the variable
holds the joined captured values. -/
def transcriptPath (input : String) : Option String :=
  match tpScanAux (input.data.length + 1) input.data with
  | [] => none
  | vs => some (joinCmdSub vs)

/-- Last position below the bound satisfying the predicate. -/
def lastPosWhere (f : Nat → Bool) (n : Nat) : Option Nat :=
  ((List.range n).filter f).getLast?

/-- Embedding of `sed -n 's/.*"content":\[\(.*\)\].*/\1/p'` (script
line 102).  POSIX leftmost-longest matching makes the leading `.*` take
the last position of the literal `"content":[` that is still followed by
a `]`, and the greedy captured group then reaches to the last `]` of the
remainder. -/
def sedContentExtract (cs : List Char) : Option (List Char) :=
  match lastPosWhere
      (fun i => ("\"content\":[").data.isPrefixOf (cs.drop i)
        && (cs.drop (i + 11)).contains ']') (cs.length + 1) with
  | none => none
  | some i =>
    let t := cs.drop (i + 11)
    match lastPosWhere (fun j => t.get? j == some ']') t.length with
    | none => none
    | some j => some (t.take j)

/-- Global substitution `s/PAT/REP/g` on a character list: leftmost,
non-overlapping, never rescanning the replacement, exactly as sed.  The
fuel starts at the input length, which suffices because each step consumes
at least one input character. -/
def replaceAllAux (pat rep : List Char) : Nat → List Char → List Char
  | 0, l => l
  | _, [] => []
  | fuel + 1, c :: cs =>
    if !pat.isEmpty && pat.isPrefixOf (c :: cs) then
      rep ++ replaceAllAux pat rep fuel ((c :: cs).drop pat.length)
    else
      c :: replaceAllAux pat rep fuel cs

/-- Global sed substitution. -/
def replaceAll (pat rep l : List Char) : List Char :=
  replaceAllAux pat rep l.length l

/-- Split a character stream into its lines (sed processes its input one
line at a time). -/
def splitNlAux : List Char → List Char → List (List Char)
  | [], acc => [acc.reverse]
  | c :: cs, acc =>
    if c == '\n' then acc.reverse :: splitNlAux cs []
    else splitNlAux cs (c :: acc)

/-- Per-line effect of `sed 's/^"//;s/"$//'` (script line 107): remove one
leading and then one trailing double quote when present. -/
def stripLineQuotes (l : List Char) : List Char :=
  let l1 := match l with
    | '"' :: r => r
    | _ => l
  match l1.getLast? with
  | some '"' => l1.dropLast
  | _ => l1

/-- Rejoin lines with newlines. -/
def joinCharLines : List (List Char) → List Char
  | [] => []
  | [l] => l
  | l :: ls => l ++ '\n' :: joinCharLines ls

/-- Strip trailing newline characters, the effect of a command
substitution on the final pipeline output. -/
def stripTrailNl (l : List Char) : List Char :=
  (l.reverse.dropWhile (fun c => c == '\n')).reverse

/-- Sed pattern `{"type":"text","text":"\n"` of script line 103 (the
backslash-n is literal). -/
def blockNlPat : List Char :=
  ("\x7b\"type\":\"text\",\"text\":\"\\n\"").data

/-- Sed pattern `},{"type":"text","text":"` of script line 104. -/
def boundaryPat : List Char :=
  ("\x7d,\x7b\"type\":\"text\",\"text\":\"").data

/-- Sed pattern `\"` (escaped double quote). -/
def qEscPat : List Char := ['\\', '"']

/-- Sed pattern `\n` (escaped newline, two literal characters). -/
def nEscPat : List Char := ['\\', 'n']

/-- Primary text extraction from the last assistant line (script
lines 102-107): content-array capture, block-boundary substitutions,
unescaping, then a per-line surrounding-quote strip, with the command
substitution dropping trailing newlines. -/
def lastOutputPrimary (line : String) : String :=
  match sedContentExtract line.data with
  | none => ""
  | some m =>
    let s2 := replaceAll blockNlPat nEscPat m
    let s3 := replaceAll boundaryPat nEscPat s2
    let s4 := replaceAll qEscPat ['"'] s3
    let s5 := replaceAll nEscPat ['\n'] s4
    let s6 := joinCharLines ((splitNlAux s5 []).map stripLineQuotes)
    ⟨stripTrailNl s6⟩

/-- Matches of `grep -o '"text":"[^"]*"'` (script line 111), leftmost and
non-overlapping, each already reduced to its captured value by the
following two seds which strip the `"text":"` head and the `"` tail of
every output line. -/
def txtScanAux : Nat → List Char → List (List Char)
  | 0, _ => []
  | _, [] => []
  | fuel + 1, c :: cs =>
    if ("\"text\":\"").data.isPrefixOf (c :: cs) then
      let r := (c :: cs).drop 8
      match r.dropWhile (fun x => !(x == '"')) with
      | '"' :: rest => r.takeWhile (fun x => !(x == '"')) :: txtScanAux fuel rest
      | _ => txtScanAux fuel cs
    else txtScanAux fuel cs

/-- Fallback text extraction (script lines 110-116). -/
def lastOutputFallback (line : String) : String :=
  let vs := txtScanAux (line.data.length + 1) line.data
  let processed := vs.map (fun v => replaceAll qEscPat ['"'] (replaceAll nEscPat ['\n'] v))
  ⟨stripTrailNl (joinCharLines processed)⟩

/-- The `LAST_OUTPUT` value: primary extraction, falling back to the loose
per-field extraction when the primary result is empty (script
lines 102-116). -/
def lastOutputOf (line : String) : String :=
  let p := lastOutputPrimary line
  if p == "" then lastOutputFallback line else p

/-- Effect of `tr '\n' ' '` on the extracted text (script line 129). -/
def flattenNl (s : String) : List Char :=
  s.data.map (fun c => if c == '\n' then ' ' else c)

/-- Opening marker token. -/
def promiseOpen : List Char := ("<promise>").data

/-- Closing marker token. -/
def promiseClose : List Char := ("</promise>").data

/-- Whether the regex `<promise>\([^<]*\)<\/promise>` matches at
position `i`: the opening token, then a maximal `<`-free run, then
immediately the closing token. -/
def promiseValidAt (cs : List Char) (i : Nat) : Bool :=
  promiseOpen.isPrefixOf (cs.drop i)
    && promiseClose.isPrefixOf ((cs.drop (i + 9)).dropWhile (fun c => !(c == '<')))

/-- The captured payload of a match at position `i`. -/
def promisePayloadAt (cs : List Char) (i : Nat) : List Char :=
  (cs.drop (i + 9)).takeWhile (fun c => !(c == '<'))

/-- Embedding of `sed -n 's/.*<promise>\([^<]*\)<\/promise>.*/\1/p'`
(script line 129): the greedy leading `.*` selects the last position at
which the marker pair matches. -/
def sedPromiseExtract (cs : List Char) : Option (List Char) :=
  match lastPosWhere (promiseValidAt cs) (cs.length + 1) with
  | none => none
  | some i => some (promisePayloadAt cs i)

/-- The `PROMISE_TEXT` value (script line 129): flatten newlines to
spaces, extract the payload, delete every `[:space:]` character. -/
def promiseTextOf (text : String) : String :=
  match sedPromiseExtract (flattenNl text) with
  | none => ""
  | some p => ⟨p.filter (fun c => !isPosixSpace c)⟩

/-- Effect of the bash expansion `${COMPLETION_PROMISE// /}`: remove
space characters only (not tabs or newlines). -/
def removeSpaces (s : String) : String :=
  ⟨s.data.filter (fun c => !(c == ' '))⟩

/-- The completion comparison of script line 132: non-empty extracted
payload and equality with the space-stripped promise. -/
def promiseMatches (text promise : String) : Bool :=
  !(promiseTextOf text == "") && promiseTextOf text == removeSpaces promise

/-- Literal searched by `grep '"role":"assistant"'` (script lines 82
and 92). -/
def roleMarker : List Char := ("\"role\":\"assistant\"").data

/-- Substring containment, the matching notion of a fixed-string grep on
one line. -/
def hasSubstr (pat : List Char) : List Char → Bool
  | [] => pat.isEmpty
  | c :: cs => pat.isPrefixOf (c :: cs) || hasSubstr pat cs

/-- Whether a transcript line is selected by
`grep '"role":"assistant"'`. -/
def isAssistantLine (l : String) : Bool :=
  hasSubstr roleMarker l.data

/-- The lines retained by the grep over the transcript. -/
def assistantLines (tl : List String) : List String :=
  tl.filter isAssistantLine

/-- Per-line effect of `sed "s/^iteration: .*/iteration: $NEXT_ITERATION/"`
(script line 163): any line starting with `iteration: ` is rewritten
wholesale.  `NEXT_ITERATION` is a signed 64-bit bash value, so the
replacement numeral may be negative. -/
def updLine (k : Int) (l : String) : String :=
  if strStarts "iteration: " l then "iteration: " ++ toString k else l

/-- The iteration rewrite of the whole state file (script lines 162-164);
the temporary-file-plus-rename mechanics leave the content transformation
as a pure function on the line list. -/
def updateIteration (file : List String) (k : Int) : List String :=
  file.map (updLine k)

/-- The block decision emitted on continuation: `decision:"block"` with a
`reason` (the replayed prompt) and a `systemMessage`. -/
structure Decision where
  reason : String
  systemMessage : String
  deriving DecidableEq

/-- The cause reported by each terminal branch of the script, in source
order. -/
inductive Cause where
  | corruptIteration
  | corruptMaxIterations
  | capReached
  | noTranscriptPath
  | transcriptNotFound
  | noAssistantMessages
  | extractLastFailed
  | noTextContent
  | completionDetected
  | noPromptText
  deriving DecidableEq

/-- Observable result of one hook invocation: process exit code, state
file afterwards (`none` means absent or deleted), the optional block
decision on stdout, the diagnostic cause sent to stderr if any, and the
informational note echoed to stdout if any (cap reached and completion
detected are echoed to stdout, all other diagnostics to stderr). -/
structure Outcome where
  exitCode : Nat
  stateAfter : Option (List String)
  decision : Option Decision
  stderrCause : Option Cause
  stdoutNote : Option Cause
  deriving DecidableEq

/-- The `SYSTEM_MSG` construction (script lines 167-171); `next` is the
bash-computed `NEXT_ITERATION` value (signed 64-bit). -/
def mkSystemMsg (promise : String) (next : Int) : String :=
  if !(promise == "null") && !(promise == "") then
    "🔄 Ralph iteration " ++ toString next ++ " | To stop: output <promise>" ++ promise
      ++ "</promise> (ONLY when statement is TRUE - do not lie to exit!)"
  else
    "🔄 Ralph iteration " ++ toString next ++ " | No completion promise set - loop runs infinitely"

/-- Script behaviour from line 60 on, after the state fields have been
parsed and validated and the cap check has passed: transcript lookup,
assistant-line selection, text extraction, completion check, iteration
increment, prompt check, iteration rewrite and decision output.  A
failing `grep -oE` for the transcript path aborts the script with the
pipeline status 1 under `set -euo pipefail`, leaving the state file in
place.  The increment `NEXT_ITERATION=$((ITERATION + 1))` of line 140
errors when `ITERATION` is an invalid-octal numeral such as `08`;
verified against GNU bash, such an arithmetic-expansion error aborts only
the current command list (the variable stays unset) and the script
continues at line 144: with an empty prompt it still reaches the line-146
corruption branch (delete state, exit 0), and with a non-empty prompt it
dies at line 163 where `set -u` hits the unset `$NEXT_ITERATION` (exit 1,
state file kept, no decision). -/
def contLoop (file : List String) (promise : String) (iterStr : String)
    (hookInput : String) (fs : String → Option (List String)) : Outcome :=
  match transcriptPath hookInput with
  | none => ⟨1, some file, none, none, none⟩
  | some tp =>
    if tp == "" then ⟨0, none, none, some Cause.noTranscriptPath, none⟩
    else
      match fs tp with
      | none => ⟨0, none, none, some Cause.transcriptNotFound, none⟩
      | some tl =>
        if assistantLines tl == [] then ⟨0, none, none, some Cause.noAssistantMessages, none⟩
        else
          if (assistantLines tl).getLast?.getD "" == "" then
            ⟨0, none, none, some Cause.extractLastFailed, none⟩
          else
            if lastOutputOf ((assistantLines tl).getLast?.getD "") == "" then
              ⟨0, none, none, some Cause.noTextContent, none⟩
            else
              if (!(promise == "null") && !(promise == ""))
                  && promiseMatches (lastOutputOf ((assistantLines tl).getLast?.getD "")) promise then
                ⟨0, none, none, none, some Cause.completionDetected⟩
              else
                if promptText file == "" then ⟨0, none, none, some Cause.noPromptText, none⟩
                else
                  match bashNumVal iterStr with
                  | none => ⟨1, some file, none, none, none⟩
                  | some vi =>
                    ⟨0, some (updateIteration file (wrap64 (vi + 1))),
                      some ⟨promptText file, mkSystemMsg promise (wrap64 (vi + 1))⟩, none, none⟩

/-- Script behaviour once the state file exists (lines 23 on): field
extraction with the `set -euo pipefail` abort when a field grep matches
nothing, numeric validation, cap check, then the transcript stage. -/
def runHookFile (file : List String) (hookInput : String)
    (fs : String → Option (List String)) : Outcome :=
  if fieldLines "iteration" (frontmatter file) == [] then ⟨1, some file, none, none, none⟩
    else if fieldLines "max_iterations" (frontmatter file) == [] then
      ⟨1, some file, none, none, none⟩
    else if fieldLines "completion_promise" (frontmatter file) == [] then
      ⟨1, some file, none, none, none⟩
    else
      if !isDigitStr (fieldValue "iteration" (frontmatter file)) then
        ⟨0, none, none, some Cause.corruptIteration, none⟩
      else if !isDigitStr (fieldValue "max_iterations" (frontmatter file)) then
        ⟨0, none, none, some Cause.corruptMaxIterations, none⟩
      else
        if capCheck (fieldValue "iteration" (frontmatter file))
            (fieldValue "max_iterations" (frontmatter file)) = true then
          ⟨0, none, none, none, some Cause.capReached⟩
        else
          contLoop file (promiseValue (frontmatter file))
            (fieldValue "iteration" (frontmatter file)) hookInput fs

/-- One invocation of the stop hook (the whole script): `state` is the
content of `.claude/ralph-loop.local.md` if present (its absence makes
the hook exit 0 immediately, script line 18), `hookInput` the stdin
payload, `fs` the filesystem lookup for the transcript path. -/
def runHook (state : Option (List String)) (hookInput : String)
    (fs : String → Option (List String)) : Outcome :=
  match state with
  | none => ⟨0, none, none, none, none⟩
  | some file => runHookFile file hookInput fs

/-- A canonical well-formed state file: frontmatter with the three fields
in the usual order, then the body lines. -/
def mkState (i m p : String) (body : List String) : List String :=
  "---" :: ("iteration: " ++ i) :: ("max_iterations: " ++ m)
    :: ("completion_promise: " ++ p) :: "---" :: body

/-- State-machine decomposition of the transcript stage of `contLoop`:
the extracted assistant text when every step succeeds, `none` whenever a
terminal transcript branch is taken instead.  Used to state ordering
properties of the controller. -/
def pipelineText (input : String) (fs : String → Option (List String)) : Option String :=
  match transcriptPath input with
  | none => none
  | some tp =>
    if tp == "" then none
    else
      match fs tp with
      | none => none
      | some tl =>
        if assistantLines tl == [] then none
        else if (assistantLines tl).getLast?.getD "" == "" then none
        else if lastOutputOf ((assistantLines tl).getLast?.getD "") == "" then none
        else some (lastOutputOf ((assistantLines tl).getLast?.getD ""))

/-- The guarded completion condition of script line 126 and 132: a
promise is configured (neither `null` nor empty) and the extracted text
matches it. -/
def promiseGate (promise lo : String) : Bool :=
  (!(promise == "null") && !(promise == "")) && promiseMatches lo promise

lemma iterLine_ne_dashes (i : String) : (("iteration: " ++ i) == "---") = false := rfl

lemma maxLine_ne_dashes (m : String) : (("max_iterations: " ++ m) == "---") = false := rfl

lemma promLine_ne_dashes (p : String) : (("completion_promise: " ++ p) == "---") = false := rfl

lemma fmAux_false_nil (ls : List String) (h : ∀ l ∈ ls, (l == "---") = false) :
    fmAux false ls = [] := by
  induction ls with
  | nil => rfl
  | cons l ls ih =>
    simp only [fmAux, h l (List.mem_cons_self l ls)]
    exact ih fun x hx => h x (List.mem_cons_of_mem l hx)

lemma frontmatter_mkState (i m p : String) (body : List String)
    (hb : ∀ l ∈ body, (l == "---") = false) :
    frontmatter (mkState i m p body) =
      ["iteration: " ++ i, "max_iterations: " ++ m, "completion_promise: " ++ p] := by
  show fmAux false _ = _
  simp [mkState, fmAux, iterLine_ne_dashes, maxLine_ne_dashes, promLine_ne_dashes,
    fmAux_false_nil body hb]

lemma fieldLines_iter (i m p : String) :
    fieldLines "iteration"
      ["iteration: " ++ i, "max_iterations: " ++ m, "completion_promise: " ++ p]
      = ["iteration: " ++ i] := rfl

lemma fieldLines_max (i m p : String) :
    fieldLines "max_iterations"
      ["iteration: " ++ i, "max_iterations: " ++ m, "completion_promise: " ++ p]
      = ["max_iterations: " ++ m] := rfl

lemma fieldLines_prom (i m p : String) :
    fieldLines "completion_promise"
      ["iteration: " ++ i, "max_iterations: " ++ m, "completion_promise: " ++ p]
      = ["completion_promise: " ++ p] := rfl

lemma digit_not_space {c : Char} (h : c.isDigit = true) : (c == ' ') = false := by
  cases hsp : (c == ' ') with
  | false => rfl
  | true =>
    have hc : c = ' ' := eq_of_beq hsp
    subst hc
    exact absurd h (by decide)

lemma isDigitStr_data_ne_nil {s : String} (h : isDigitStr s = true) : s.data ≠ [] := by
  intro hnil
  simp [isDigitStr, hnil] at h

lemma isDigitStr_ne_empty {s : String} (h : isDigitStr s = true) : s ≠ "" := by
  intro he
  exact isDigitStr_data_ne_nil h (by rw [he])

lemma dropWhile_space_digits {s : String} (h : isDigitStr s = true) :
    s.data.dropWhile (fun c => c == ' ') = s.data := by
  cases hd : s.data with
  | nil => simp
  | cons c cs =>
    have h2 : ∀ x ∈ s.data, x.isDigit = true := by
      simp [isDigitStr] at h
      exact h.2
    have hc : c.isDigit = true := h2 c (by rw [hd]; exact List.mem_cons_self c cs)
    simp [List.dropWhile_cons, digit_not_space hc]

lemma joinCmdSub_single {s : String} (h : s ≠ "") : joinCmdSub [s] = s := by
  have hb : (s == "") = false := by
    simp [beq_eq_false_iff_ne, h]
  simp [joinCmdSub, dropTrailingEmpties, joinNl, hb]

lemma fieldValue_iter_digits (i m p : String) (hi : isDigitStr i = true) :
    fieldValue "iteration"
      ["iteration: " ++ i, "max_iterations: " ++ m, "completion_promise: " ++ p] = i := by
  have h1 : fieldValue "iteration"
      ["iteration: " ++ i, "max_iterations: " ++ m, "completion_promise: " ++ p]
      = joinCmdSub [⟨i.data.dropWhile (fun c => c == ' ')⟩] := rfl
  rw [h1, dropWhile_space_digits hi]
  exact joinCmdSub_single (isDigitStr_ne_empty hi)

lemma fieldValue_max_digits (i m p : String) (hm : isDigitStr m = true) :
    fieldValue "max_iterations"
      ["iteration: " ++ i, "max_iterations: " ++ m, "completion_promise: " ++ p] = m := by
  have h1 : fieldValue "max_iterations"
      ["iteration: " ++ i, "max_iterations: " ++ m, "completion_promise: " ++ p]
      = joinCmdSub [⟨m.data.dropWhile (fun c => c == ' ')⟩] := rfl
  rw [h1, dropWhile_space_digits hm]
  exact joinCmdSub_single (isDigitStr_ne_empty hm)

lemma runHook_mkState_valid (i m p : String) (body : List String) (input : String)
    (fs : String → Option (List String))
    (hi : isDigitStr i = true) (hm : isDigitStr m = true)
    (hb : ∀ l ∈ body, (l == "---") = false) :
    runHook (some (mkState i m p body)) input fs =
      if capCheck i m = true then
        ⟨0, none, none, none, some Cause.capReached⟩
      else
        contLoop (mkState i m p body)
          (promiseValue (frontmatter (mkState i m p body))) i input fs := by
  have hfm := frontmatter_mkState i m p body hb
  show runHookFile _ _ _ = _
  simp only [runHookFile, hfm, fieldLines_iter, fieldLines_max, fieldLines_prom,
    fieldValue_iter_digits i m p hi, fieldValue_max_digits i m p hm, hi, hm]
  rfl

lemma contLoop_note (f : List String) (pr : String) (iterStr : String) (inp : String)
    (fs : String → Option (List String)) :
    (contLoop f pr iterStr inp fs).stdoutNote = none ∨
      (contLoop f pr iterStr inp fs).stdoutNote = some Cause.completionDetected := by
  unfold contLoop
  repeat' split
  all_goals first | (left; rfl) | (right; rfl)

lemma contLoop_decision (f : List String) (pr : String) (iterStr : String) (inp : String)
    (fs : String → Option (List String)) :
    ∀ d, (contLoop f pr iterStr inp fs).decision = some d →
      ∃ n, bashNumVal iterStr = some n ∧
        d = ⟨promptText f, mkSystemMsg pr (wrap64 (n + 1))⟩ := by
  intro d hd
  unfold contLoop at hd
  repeat' split at hd
  all_goals first
    | exact Option.noConfusion hd
    | exact ⟨_, by assumption, (Option.some.inj hd).symm⟩

lemma contLoop_no_completion (f : List String) (pr : String) (iterStr : String)
    (inp : String) (fs : String → Option (List String)) (hpr : pr = "null" ∨ pr = "") :
    (contLoop f pr iterStr inp fs).stdoutNote ≠ some Cause.completionDetected := by
  have hgate : (!(pr == "null") && !(pr == "")) = false := by
    rcases hpr with h | h <;> subst h <;> rfl
  unfold contLoop
  repeat' split
  all_goals simp_all

lemma runHookFile_cases (file : List String) (input : String)
    (fs : String → Option (List String)) :
    runHookFile file input fs = ⟨1, some file, none, none, none⟩ ∨
    runHookFile file input fs = ⟨0, none, none, some Cause.corruptIteration, none⟩ ∨
    runHookFile file input fs = ⟨0, none, none, some Cause.corruptMaxIterations, none⟩ ∨
    runHookFile file input fs = ⟨0, none, none, none, some Cause.capReached⟩ ∨
    runHookFile file input fs =
      contLoop file (promiseValue (frontmatter file))
        (fieldValue "iteration" (frontmatter file)) input fs := by
  unfold runHookFile
  repeat' split
  all_goals simp

lemma contLoop_pipeline (f : List String) (pr : String) (iterStr : String) (inp : String)
    (fs : String → Option (List String)) :
    ((contLoop f pr iterStr inp fs).stdoutNote = some Cause.completionDetected ↔
      ∃ lo, pipelineText inp fs = some lo ∧ promiseGate pr lo = true) ∧
    ((contLoop f pr iterStr inp fs).stderrCause = some Cause.noPromptText ↔
      promptText f = "" ∧ ∃ lo, pipelineText inp fs = some lo ∧ promiseGate pr lo = false) := by
  unfold contLoop pipelineText promiseGate
  repeat' split
  all_goals simp_all

lemma mkSystemMsg_no_promise {pr : String} (n : Int) (hp : pr = "null" ∨ pr = "") :
    mkSystemMsg pr n =
      "🔄 Ralph iteration " ++ toString n ++ " | No completion promise set - loop runs infinitely" := by
  rcases hp with h | h <;> rw [h] <;> rfl

lemma capCheck_eq_true_iff (iterStr maxStr : String) :
    capCheck iterStr maxStr = true ↔
      ∃ vm, bashNumVal maxStr = some vm ∧ 0 < vm ∧
        ∃ vi, bashNumVal iterStr = some vi ∧ vm ≤ vi := by
  unfold capCheck
  repeat' split
  all_goals simp_all

lemma mkState_cap_iff (i m p : String) (body : List String) (input : String)
    (fs : String → Option (List String))
    (hi : isDigitStr i = true) (hm : isDigitStr m = true)
    (hb : ∀ l ∈ body, (l == "---") = false) :
    (runHook (some (mkState i m p body)) input fs).stdoutNote = some Cause.capReached ↔
      capCheck i m = true := by
  rw [runHook_mkState_valid i m p body input fs hi hm hb]
  cases hc : capCheck i m
  · rw [if_neg (by simp [hc])]
    constructor
    · intro hnote
      rcases contLoop_note (mkState i m p body)
          (promiseValue (frontmatter (mkState i m p body))) i input fs with h | h <;>
        rw [h] at hnote
      · exact Option.noConfusion hnote
      · exact absurd (Option.some.inj hnote) (by decide)
    · intro h
      exact Bool.noConfusion h
  · simp

/-- C1 counterexample: the claimed unbounded-numeral reading of the cap
comparison is false.  Bash evaluates `[[ ITERATION -ge MAX ]]` on signed
64-bit values, so the 20-digit iteration numeral `9223372036854775809`
wraps to `-9223372036854775807`: with `max_iterations: 5` the claim
predicts the cap note, but the run continues and emits a block decision
whose system message carries the wrapped next iteration
`-9223372036854775806`. -/
theorem c1_counterexample :
    isDigitStr "9223372036854775809" = true ∧ isDigitStr "5" = true ∧
    0 < natOfDigits "5" ∧ natOfDigits "5" ≤ natOfDigits "9223372036854775809" ∧
    (runHook (some (mkState "9223372036854775809" "5" "null" ["Go"]))
        "\x7b\"transcript_path\":\"/t\"\x7d"
        (fun _ => some ["\x7b\"role\":\"assistant\",\"content\":[\x7b\"type\":\"text\",\"text\":\"hi\"\x7d]\x7d"])).stdoutNote
      ≠ some Cause.capReached ∧
    (runHook (some (mkState "9223372036854775809" "5" "null" ["Go"]))
        "\x7b\"transcript_path\":\"/t\"\x7d"
        (fun _ => some ["\x7b\"role\":\"assistant\",\"content\":[\x7b\"type\":\"text\",\"text\":\"hi\"\x7d]\x7d"])).decision =
      some ⟨"Go",
        "🔄 Ralph iteration -9223372036854775806 | No completion promise set - loop runs infinitely"⟩ := by
  exact ⟨by decide, by decide, by decide, by decide, by decide, by decide⟩

/-- C1 (amended): the cap comparison uses bash numeral evaluation
(`bashNumVal`): signed 64-bit wraparound, leading-zero numerals read as
octal, invalid octal such as `08` unevaluable.  For every valid state
record: when `max_iterations` evaluates to a non-positive value or is
unevaluable no invocation reports the cap; when it evaluates to `N > 0`
the cap note is reported exactly when `iteration` evaluates to a value
`>= N`, and in that case the invocation deletes the state file, exits
with status 0 and produces no block decision. -/
theorem c1_cap_semantics (i m p : String) (body : List String) (input : String)
    (fs : String → Option (List String))
    (hi : isDigitStr i = true) (hm : isDigitStr m = true)
    (hb : ∀ l ∈ body, (l == "---") = false) :
    (∀ vm : Int, bashNumVal m = some vm → vm ≤ 0 →
      (runHook (some (mkState i m p body)) input fs).stdoutNote ≠ some Cause.capReached) ∧
    (bashNumVal m = none →
      (runHook (some (mkState i m p body)) input fs).stdoutNote ≠ some Cause.capReached) ∧
    (∀ vm : Int, bashNumVal m = some vm → 0 < vm →
      ((runHook (some (mkState i m p body)) input fs).stdoutNote = some Cause.capReached ↔
        ∃ vi, bashNumVal i = some vi ∧ vm ≤ vi)) ∧
    (∀ vm vi : Int, bashNumVal m = some vm → 0 < vm → bashNumVal i = some vi → vm ≤ vi →
      runHook (some (mkState i m p body)) input fs =
        ⟨0, none, none, none, some Cause.capReached⟩) := by
  refine ⟨?_, ?_, ?_, ?_⟩
  · intro vm hvm hle hnote
    rcases (capCheck_eq_true_iff i m).mp
        ((mkState_cap_iff i m p body input fs hi hm hb).mp hnote) with ⟨vm', hvm', hpos, -⟩
    rw [hvm] at hvm'
    have : vm = vm' := Option.some.inj hvm'
    omega
  · intro hvm hnote
    rcases (capCheck_eq_true_iff i m).mp
        ((mkState_cap_iff i m p body input fs hi hm hb).mp hnote) with ⟨vm', hvm', -, -⟩
    rw [hvm] at hvm'
    exact Option.noConfusion hvm'
  · intro vm hvm hpos
    rw [mkState_cap_iff i m p body input fs hi hm hb, capCheck_eq_true_iff]
    constructor
    · rintro ⟨vm', hvm', -, vi, hvi, hle⟩
      rw [hvm] at hvm'
      have : vm = vm' := Option.some.inj hvm'
      exact ⟨vi, hvi, by omega⟩
    · rintro ⟨vi, hvi, hle⟩
      exact ⟨vm, hvm, hpos, vi, hvi, hle⟩
  · intro vm vi hvm hpos hvi hle
    rw [runHook_mkState_valid i m p body input fs hi hm hb,
      if_pos ((capCheck_eq_true_iff i m).mpr ⟨vm, hvm, hpos, vi, hvi, hle⟩)]

theorem c1_cap_semantics_witness :
    isDigitStr "7" = true ∧ isDigitStr "5" = true ∧
    bashNumVal "5" = some 5 ∧ (0 : Int) < 5 ∧
    bashNumVal "7" = some 7 ∧ (5 : Int) ≤ 7 ∧
    runHook (some (mkState "7" "5" "null" ["Fix the bug"])) "\x7b\x7d" (fun _ => none) =
      ⟨0, none, none, none, some Cause.capReached⟩ :=
  ⟨by decide, by decide, by decide, by decide, by decide, by decide,
    (c1_cap_semantics "7" "5" "null" ["Fix the bug"] "\x7b\x7d" (fun _ => none)
      (by decide) (by decide) (by decide)).2.2.2 5 7 (by decide) (by decide) (by decide)
      (by decide)⟩

/-- C2: evaluation of the hook on the failing input of the claim.  A state
file whose frontmatter lacks the `iteration:` line makes the grep of
script line 25 fail; under `set -euo pipefail` the run exits with status 1
keeping the state file and emitting no diagnostic, contradicting the
claimed delete-diagnose-exit-0 behaviour and the claimed all-paths exit
code 0.  A present-but-non-numeric value, by contrast, behaves exactly as
the claim says. -/
theorem c2_corrupt_field_exit :
    runHook (some ["---", "max_iterations: 5", "completion_promise: null", "---", "Fix the bug"])
        "\x7b\x7d" (fun _ => none) =
      ⟨1, some ["---", "max_iterations: 5", "completion_promise: null", "---", "Fix the bug"],
        none, none, none⟩ ∧
    runHook (some (mkState "abc" "5" "null" ["Fix the bug"])) "\x7b\x7d" (fun _ => none) =
      ⟨0, none, none, some Cause.corruptIteration, none⟩ := by
  exact ⟨by decide, by decide⟩

/-- C5: evaluation of the four transcript-unavailability cases.  When the
payload has no `transcript_path` field at all, the grep of script line 61
fails and `set -euo pipefail` aborts with status 1 keeping the state file
— contradicting the claimed delete-report-exit-0 handling for that case.
The other three cases (file missing, no assistant turn, no extractable
text) behave exactly as the claim says. -/
theorem c5_transcript_unavailable :
    runHook (some (mkState "1" "0" "null" ["Go"])) "\x7b\"session_id\":\"x\"\x7d"
        (fun _ => none) =
      ⟨1, some (mkState "1" "0" "null" ["Go"]), none, none, none⟩ ∧
    runHook (some (mkState "1" "0" "null" ["Go"])) "\x7b\"transcript_path\":\"/nope\"\x7d"
        (fun _ => none) =
      ⟨0, none, none, some Cause.transcriptNotFound, none⟩ ∧
    runHook (some (mkState "1" "0" "null" ["Go"])) "\x7b\"transcript_path\":\"/t\"\x7d"
        (fun _ => some ["\x7b\"role\":\"user\"\x7d"]) =
      ⟨0, none, none, some Cause.noAssistantMessages, none⟩ ∧
    runHook (some (mkState "1" "0" "null" ["Go"])) "\x7b\"transcript_path\":\"/t\"\x7d"
        (fun _ => some ["\x7b\"role\":\"assistant\",\"content\":[]\x7d"]) =
      ⟨0, none, none, some Cause.noTextContent, none⟩ := by
  exact ⟨by decide, by decide, by decide, by decide⟩

/-- C10: for every state record whose completion promise value, after
quote stripping, is the literal string `null` or the empty string, the
completion check is skipped: no invocation reports completion detection,
and any continuation decision carries the `No completion promise set`
system message, with the bash-evaluated (signed 64-bit) successor of the
iteration numeral. -/
theorem c10_promise_sentinel (file : List String) (input : String)
    (fs : String → Option (List String))
    (hp : promiseValue (frontmatter file) = "null" ∨ promiseValue (frontmatter file) = "") :
    (runHook (some file) input fs).stdoutNote ≠ some Cause.completionDetected ∧
    ∀ d, (runHook (some file) input fs).decision = some d →
      ∃ n, bashNumVal (fieldValue "iteration" (frontmatter file)) = some n ∧
        d.systemMessage =
          "🔄 Ralph iteration " ++ toString (wrap64 (n + 1))
            ++ " | No completion promise set - loop runs infinitely" := by
  have hrw : runHook (some file) input fs = runHookFile file input fs := rfl
  constructor
  · intro hEq
    rw [hrw] at hEq
    rcases runHookFile_cases file input fs with h | h | h | h | h <;> rw [h] at hEq
    all_goals first
      | exact Option.noConfusion hEq
      | exact Cause.noConfusion (Option.some.inj hEq)
      | exact contLoop_no_completion _ _ _ _ _ hp hEq
  · intro d hd
    rw [hrw] at hd
    rcases runHookFile_cases file input fs with h | h | h | h | h <;> rw [h] at hd
    all_goals first
      | exact Option.noConfusion hd
      | (rcases contLoop_decision _ _ _ _ _ d hd with ⟨n, hn, hD⟩
         exact ⟨n, hn, by rw [hD]; exact mkSystemMsg_no_promise _ hp⟩)

set_option maxHeartbeats 2000000 in
theorem c10_promise_sentinel_witness :
    (promiseValue (frontmatter (mkState "2" "0" "null" ["Keep going"])) = "null" ∨
      promiseValue (frontmatter (mkState "2" "0" "null" ["Keep going"])) = "") ∧
    (runHook (some (mkState "2" "0" "null" ["Keep going"]))
        "\x7b\"transcript_path\":\"/t\"\x7d"
        (fun _ => some ["\x7b\"role\":\"assistant\",\"content\":[\x7b\"type\":\"text\",\"text\":\"hi\"\x7d]\x7d"])).decision =
      some ⟨"Keep going", "🔄 Ralph iteration 3 | No completion promise set - loop runs infinitely"⟩ ∧
    (∃ n, bashNumVal (fieldValue "iteration"
          (frontmatter (mkState "2" "0" "null" ["Keep going"]))) = some n ∧
      (⟨"Keep going",
          "🔄 Ralph iteration 3 | No completion promise set - loop runs infinitely"⟩ : Decision).systemMessage =
        "🔄 Ralph iteration " ++ toString (wrap64 (n + 1))
          ++ " | No completion promise set - loop runs infinitely") :=
  ⟨Or.inl (by decide), by decide,
    (c10_promise_sentinel (mkState "2" "0" "null" ["Keep going"])
        "\x7b\"transcript_path\":\"/t\"\x7d"
        (fun _ => some ["\x7b\"role\":\"assistant\",\"content\":[\x7b\"type\":\"text\",\"text\":\"hi\"\x7d]\x7d"])
        (Or.inl (by decide))).2
      ⟨"Keep going", "🔄 Ralph iteration 3 | No completion promise set - loop runs infinitely"⟩
      (by decide)⟩

/-- C9: ordering of the empty-body corruption check, over bash numeral
evaluation.  For every well-formed state record with an empty body: when
the cap condition holds (positive evaluated max, evaluated iteration at
least it) the invocation terminates with the cap outcome (not
corruption); when the cap condition fails, completion is detected exactly
when the transcript pipeline succeeds and the promise gate fires, and —
for an iteration numeral bash can evaluate — the `No prompt text`
corruption outcome occurs exactly when the transcript pipeline succeeds
and the promise gate does not fire, i.e. exactly when a continuation
would otherwise have been chosen. -/
theorem c9_empty_body_ordering (i m p : String) (input : String)
    (fs : String → Option (List String))
    (hi : isDigitStr i = true) (hm : isDigitStr m = true) :
    (∀ vm vi : Int, bashNumVal m = some vm → 0 < vm → bashNumVal i = some vi → vm ≤ vi →
      runHook (some (mkState i m p [])) input fs =
        ⟨0, none, none, none, some Cause.capReached⟩) ∧
    (capCheck i m = false →
      ((runHook (some (mkState i m p [])) input fs).stdoutNote = some Cause.completionDetected ↔
        ∃ lo, pipelineText input fs = some lo ∧
          promiseGate (promiseValue (frontmatter (mkState i m p []))) lo = true)) ∧
    ((∃ n, bashNumVal i = some n) → capCheck i m = false →
      ((runHook (some (mkState i m p [])) input fs).stderrCause = some Cause.noPromptText ↔
        ∃ lo, pipelineText input fs = some lo ∧
          promiseGate (promiseValue (frontmatter (mkState i m p []))) lo = false)) := by
  have hrun := runHook_mkState_valid i m p [] input fs hi hm (by simp)
  have hprompt : promptText (mkState i m p []) = "" := rfl
  refine ⟨?_, ?_, ?_⟩
  · intro vm vi hvm hpos hvi hle
    rw [hrun, if_pos ((capCheck_eq_true_iff i m).mpr ⟨vm, hvm, hpos, vi, hvi, hle⟩)]
  · intro hcap
    rw [hrun, if_neg (by simp [hcap])]
    exact (contLoop_pipeline (mkState i m p [])
      (promiseValue (frontmatter (mkState i m p []))) i input fs).1
  · intro _ hcap
    rw [hrun, if_neg (by simp [hcap])]
    rw [(contLoop_pipeline (mkState i m p [])
      (promiseValue (frontmatter (mkState i m p []))) i input fs).2]
    simp [hprompt]

theorem c9_empty_body_ordering_witness :
    isDigitStr "1" = true ∧ isDigitStr "0" = true ∧
    (∃ n, bashNumVal "1" = some n) ∧ capCheck "1" "0" = false ∧
    ((runHook (some (mkState "1" "0" "null" [])) "\x7b\"transcript_path\":\"/t\"\x7d"
        (fun _ => some ["\x7b\"role\":\"assistant\",\"content\":[\x7b\"type\":\"text\",\"text\":\"hi\"\x7d]\x7d"])).stderrCause
          = some Cause.noPromptText ↔
      ∃ lo, pipelineText "\x7b\"transcript_path\":\"/t\"\x7d"
          (fun _ => some ["\x7b\"role\":\"assistant\",\"content\":[\x7b\"type\":\"text\",\"text\":\"hi\"\x7d]\x7d"]) = some lo ∧
        promiseGate (promiseValue (frontmatter (mkState "1" "0" "null" []))) lo = false) :=
  ⟨by decide, by decide, ⟨1, by decide⟩, by decide,
    (c9_empty_body_ordering "1" "0" "null" "\x7b\"transcript_path\":\"/t\"\x7d"
        (fun _ => some ["\x7b\"role\":\"assistant\",\"content\":[\x7b\"type\":\"text\",\"text\":\"hi\"\x7d]\x7d"])
        (by decide) (by decide)).2.2 ⟨1, by decide⟩ (by decide)⟩

/-- The lines strictly after the second occurrence of the delimiter line,
exactly as the specification words describe `extractBody`. -/
def specBodyAux : Nat → List String → List String
  | _, [] => []
  | c, l :: ls =>
    if l == "---" then (if c == 1 then ls else specBodyAux (c + 1) ls)
    else specBodyAux c ls

/-- Specification-side body extraction: all content strictly after the
second `---` line, kept verbatim. -/
def specBody (file : List String) : List String :=
  specBodyAux 0 file

/-- C7 counterexample: for a state file whose body contains a further
`---` line, the awk extraction drops that line, so the extracted prompt
is not the content strictly after the second delimiter. -/
theorem c7_counterexample :
    specBody ["---", "iteration: 0", "max_iterations: 0", "completion_promise: null",
        "---", "A", "---", "B"] = ["A", "---", "B"] ∧
    awkBody ["---", "iteration: 0", "max_iterations: 0", "completion_promise: null",
        "---", "A", "---", "B"] = ["A", "B"] ∧
    promptText ["---", "iteration: 0", "max_iterations: 0", "completion_promise: null",
        "---", "A", "---", "B"] = "A\nB" ∧
    joinCmdSub (specBody ["---", "iteration: 0", "max_iterations: 0",
        "completion_promise: null", "---", "A", "---", "B"]) = "A\n---\nB" ∧
    promptText ["---", "iteration: 0", "max_iterations: 0", "completion_promise: null",
        "---", "A", "---", "B"]
      ≠ joinCmdSub (specBody ["---", "iteration: 0", "max_iterations: 0",
        "completion_promise: null", "---", "A", "---", "B"]) := by
  exact ⟨by decide, by decide, by decide, by decide, by decide⟩

lemma awkAux_two (i : Nat) (h : 2 ≤ i) (ls : List String) :
    awkAux i ls = ls.filter (fun l => !(l == "---")) := by
  induction ls generalizing i with
  | nil => rfl
  | cons l ls ih =>
    by_cases hl : (l == "---") = true
    · simp [awkAux, hl, ih (i + 1) (by omega)]
    · simp [awkAux, hl, h, ih i h]

lemma awkAux_one (ls : List String) :
    awkAux 1 ls = (specBodyAux 1 ls).filter (fun l => !(l == "---")) := by
  induction ls with
  | nil => rfl
  | cons l ls ih =>
    by_cases hl : (l == "---") = true
    · simp [awkAux, specBodyAux, hl, awkAux_two 2 (by omega)]
    · simp [awkAux, specBodyAux, hl, ih]

lemma awkAux_zero (ls : List String) :
    awkAux 0 ls = (specBodyAux 0 ls).filter (fun l => !(l == "---")) := by
  induction ls with
  | nil => rfl
  | cons l ls ih =>
    by_cases hl : (l == "---") = true
    · simp [awkAux, specBodyAux, hl, awkAux_one]
    · simp [awkAux, specBodyAux, hl, ih]

/-- C7 (amended): `extractBody` returns the lines strictly after the
second `---` delimiter with any further `---` lines removed (not kept
verbatim), and every continuation decision replays exactly that extracted
text, newline-joined, as its `reason`. -/
theorem c7_body_and_reason :
    (∀ file : List String, awkBody file = (specBody file).filter (fun l => !(l == "---"))) ∧
    (∀ (file : List String) (input : String) (fs : String → Option (List String))
        (d : Decision),
      (runHook (some file) input fs).decision = some d → d.reason = promptText file) := by
  constructor
  · intro file
    exact awkAux_zero file
  · intro file input fs d hd
    have hrw : runHook (some file) input fs = runHookFile file input fs := rfl
    rw [hrw] at hd
    rcases runHookFile_cases file input fs with h | h | h | h | h <;> rw [h] at hd
    all_goals first
      | exact Option.noConfusion hd
      | (rcases contLoop_decision _ _ _ _ _ d hd with ⟨n, -, hD⟩
         rw [hD])

theorem c7_body_and_reason_witness :
    (runHook (some (mkState "2" "5" "\"ready\"" ["Fix the bug"]))
        "\x7b\"transcript_path\":\"/t\"\x7d"
        (fun _ => some ["\x7b\"role\":\"assistant\",\"content\":[\x7b\"type\":\"text\",\"text\":\"working\"\x7d]\x7d"])).decision =
      some ⟨"Fix the bug",
        "🔄 Ralph iteration 3 | To stop: output <promise>ready</promise> (ONLY when statement is TRUE - do not lie to exit!)"⟩ ∧
    (⟨"Fix the bug",
        "🔄 Ralph iteration 3 | To stop: output <promise>ready</promise> (ONLY when statement is TRUE - do not lie to exit!)"⟩ : Decision).reason =
      promptText (mkState "2" "5" "\"ready\"" ["Fix the bug"]) :=
  ⟨by decide,
    c7_body_and_reason.2 (mkState "2" "5" "\"ready\"" ["Fix the bug"])
      "\x7b\"transcript_path\":\"/t\"\x7d"
      (fun _ => some ["\x7b\"role\":\"assistant\",\"content\":[\x7b\"type\":\"text\",\"text\":\"working\"\x7d]\x7d"])
      ⟨"Fix the bug",
        "🔄 Ralph iteration 3 | To stop: output <promise>ready</promise> (ONLY when statement is TRUE - do not lie to exit!)"⟩
      (by decide)⟩

/-- C4 counterexample: the sed rewrite of script line 163 anchors only on
the start of each line, so a body line beginning with `iteration: ` is
rewritten too — the body is not preserved byte-for-byte. -/
theorem c4_counterexample :
    updateIteration ["---", "iteration: 0", "max_iterations: 0", "completion_promise: null",
        "---", "iteration: 9 things"] 1 =
      ["---", "iteration: 1", "max_iterations: 0", "completion_promise: null",
        "---", "iteration: 1"] ∧
    awkBody (updateIteration ["---", "iteration: 0", "max_iterations: 0",
        "completion_promise: null", "---", "iteration: 9 things"] 1) = ["iteration: 1"] ∧
    awkBody ["---", "iteration: 0", "max_iterations: 0", "completion_promise: null",
        "---", "iteration: 9 things"] = ["iteration: 9 things"] ∧
    awkBody (updateIteration ["---", "iteration: 0", "max_iterations: 0",
        "completion_promise: null", "---", "iteration: 9 things"] 1)
      ≠ awkBody ["---", "iteration: 0", "max_iterations: 0", "completion_promise: null",
        "---", "iteration: 9 things"] := by
  exact ⟨by decide, by decide, by decide, by decide⟩

lemma iterLine_shape {l : String} (h : strStarts "iteration: " l = true) :
    ∃ t, l.data = 'i' :: 't' :: 'e' :: 'r' :: 'a' :: 't' :: 'i' :: 'o' :: 'n'
      :: ':' :: ' ' :: t := by
  rcases List.isPrefixOf_iff_prefix.mp h with ⟨t, ht⟩
  exact ⟨t, ht.symm⟩

lemma iter_not_max {l : String} (h : strStarts "iteration: " l = true) :
    strStarts "max_iterations:" l = false := by
  rcases iterLine_shape h with ⟨t, ht⟩
  show ("max_iterations:").data.isPrefixOf l.data = false
  rw [ht]
  rfl

lemma iter_not_prom {l : String} (h : strStarts "iteration: " l = true) :
    strStarts "completion_promise:" l = false := by
  rcases iterLine_shape h with ⟨t, ht⟩
  show ("completion_promise:").data.isPrefixOf l.data = false
  rw [ht]
  rfl

lemma updLine_keeps {k : Int} {l : String} (h : strStarts "iteration: " l = false) :
    updLine k l = l := by
  simp [updLine, h]

lemma updLine_dashes (k : Int) (l : String) : (updLine k l == "---") = (l == "---") := by
  by_cases h : strStarts "iteration: " l = true
  · have hne : (l == "---") = false := by
      cases hb : (l == "---") with
      | false => rfl
      | true =>
        have hl : l = "---" := eq_of_beq hb
        rw [hl] at h
        exact absurd h (by decide)
    simp [updLine, h, hne, iterLine_ne_dashes]
  · simp [updLine, h]

lemma fmAux_updLine (k : Int) (b : Bool) (ls : List String) :
    fmAux b (ls.map (updLine k)) = (fmAux b ls).map (updLine k) := by
  induction ls generalizing b with
  | nil => cases b <;> rfl
  | cons l ls ih =>
    cases b with
    | false =>
      by_cases hl : (l == "---") = true
      · simp [fmAux, updLine_dashes, hl, ih true]
      · simp [fmAux, updLine_dashes, hl, ih false]
    | true =>
      by_cases hl : (l == "---") = true
      · simp [fmAux, updLine_dashes, hl, ih false]
      · simp [fmAux, updLine_dashes, hl, ih true]

lemma awkAux_updLine (k : Int) (i : Nat) (ls : List String) :
    awkAux i (ls.map (updLine k)) = (awkAux i ls).map (updLine k) := by
  induction ls generalizing i with
  | nil => rfl
  | cons l ls ih =>
    by_cases hl : (l == "---") = true
    · simp [awkAux, updLine_dashes, hl, ih]
    · by_cases h2 : 2 ≤ i
      · simp [awkAux, updLine_dashes, hl, h2, ih]
      · simp [awkAux, updLine_dashes, hl, h2, ih]

lemma filter_map_updLine (p : String → Bool) (k : Int)
    (hp : ∀ l, strStarts "iteration: " l = true → p l = false ∧ p (updLine k l) = false) :
    ∀ fm : List String, (fm.map (updLine k)).filter p = fm.filter p := by
  intro fm
  induction fm with
  | nil => rfl
  | cons l fm ih =>
    by_cases hit : strStarts "iteration: " l = true
    · rcases hp l hit with ⟨h1, h2⟩
      simp [List.filter_cons, h1, h2, ih]
    · have hf : strStarts "iteration: " l = false := by
        cases hs : strStarts "iteration: " l with
        | false => rfl
        | true => exact absurd hs hit
      rw [List.map_cons, updLine_keeps hf]
      simp only [List.filter_cons, ih]

/-- C4 (amended): the iteration rewrite changes every line beginning with
`iteration: ` (wherever it occurs) to `iteration: <k>` and leaves every
other line untouched; re-parsing afterwards yields the same
`max_iterations` and `completion_promise` values, and the body is
preserved whenever none of its lines begins with `iteration: `. -/
theorem c4_update_frame (file : List String) (k : Int)
    (hbody : ∀ l ∈ awkBody file, strStarts "iteration: " l = false) :
    fieldValue "max_iterations" (frontmatter (updateIteration file k)) =
      fieldValue "max_iterations" (frontmatter file) ∧
    promiseValue (frontmatter (updateIteration file k)) =
      promiseValue (frontmatter file) ∧
    (∀ l ∈ file, strStarts "iteration: " l = false → updLine k l = l) ∧
    (∀ l ∈ updateIteration file k, strStarts "iteration: " l = true →
      l = "iteration: " ++ toString k) ∧
    awkBody (updateIteration file k) = awkBody file := by
  have hfm : frontmatter (updateIteration file k) = (frontmatter file).map (updLine k) :=
    fmAux_updLine k false file
  have hmax : ∀ l, strStarts "iteration: " l = true →
      strStarts ("max_iterations" ++ ":") l = false
        ∧ strStarts ("max_iterations" ++ ":") (updLine k l) = false := by
    intro l h
    refine ⟨iter_not_max h, ?_⟩
    have h1 : updLine k l = "iteration: " ++ toString k := by simp [updLine, h]
    rw [h1]
    rfl
  have hprom : ∀ l, strStarts "iteration: " l = true →
      strStarts ("completion_promise" ++ ":") l = false
        ∧ strStarts ("completion_promise" ++ ":") (updLine k l) = false := by
    intro l h
    refine ⟨iter_not_prom h, ?_⟩
    have h1 : updLine k l = "iteration: " ++ toString k := by simp [updLine, h]
    rw [h1]
    rfl
  refine ⟨?_, ?_, ?_, ?_, ?_⟩
  · unfold fieldValue fieldLines
    rw [hfm, filter_map_updLine _ k hmax]
  · unfold promiseValue fieldLines
    rw [hfm, filter_map_updLine _ k hprom]
  · intro l _ h
    exact updLine_keeps h
  · intro l hl hstart
    rcases List.mem_map.mp hl with ⟨l0, _, rfl⟩
    by_cases h0 : strStarts "iteration: " l0 = true
    · simp [updLine, h0]
    · have hf : strStarts "iteration: " l0 = false := by
        cases hs : strStarts "iteration: " l0 with
        | false => rfl
        | true => exact absurd hs h0
      rw [updLine_keeps hf] at hstart
      rw [hf] at hstart
      exact Bool.noConfusion hstart
  · show awkAux 0 (file.map (updLine k)) = awkAux 0 file
    rw [awkAux_updLine k 0 file]
    have : (awkAux 0 file).map (updLine k) = (awkAux 0 file).map id :=
      List.map_congr_left (fun l hl => updLine_keeps (hbody l hl))
    rw [this, List.map_id]

theorem c4_update_frame_witness :
    (∀ l ∈ awkBody (mkState "2" "5" "\"ready\"" ["Fix the bug", "carefully"]),
      strStarts "iteration: " l = false) ∧
    awkBody (updateIteration (mkState "2" "5" "\"ready\"" ["Fix the bug", "carefully"]) 3) =
      awkBody (mkState "2" "5" "\"ready\"" ["Fix the bug", "carefully"]) ∧
    fieldValue "max_iterations"
        (frontmatter (updateIteration (mkState "2" "5" "\"ready\"" ["Fix the bug", "carefully"]) 3)) =
      fieldValue "max_iterations"
        (frontmatter (mkState "2" "5" "\"ready\"" ["Fix the bug", "carefully"])) :=
  ⟨by decide,
    (c4_update_frame (mkState "2" "5" "\"ready\"" ["Fix the bug", "carefully"]) 3
      (by decide)).2.2.2.2,
    (c4_update_frame (mkState "2" "5" "\"ready\"" ["Fix the bug", "carefully"]) 3
      (by decide)).1⟩

lemma lastPosWhere_spec (f : Nat → Bool) (n : Nat) (i : Nat) :
    lastPosWhere f n = some i ↔
      f i = true ∧ i < n ∧ ∀ j, i < j → j < n → f j = false := by
  induction n with
  | zero => simp [lastPosWhere]
  | succ n ih =>
    unfold lastPosWhere at ih ⊢
    rw [List.range_succ, List.filter_append]
    cases hf : f n with
    | true =>
      have hfil : List.filter f [n] = [n] := by simp [hf]
      rw [hfil, List.getLast?_concat]
      constructor
      · intro h
        have hni : n = i := Option.some.inj h
        subst hni
        exact ⟨hf, Nat.lt_succ_self n, fun j h1 h2 => by omega⟩
      · rintro ⟨hfi, hlt, hmax⟩
        by_cases hin : i = n
        · rw [hin]
        · have hi : i < n := by omega
          have hcontra := hmax n hi (Nat.lt_succ_self n)
          rw [hf] at hcontra
          exact Bool.noConfusion hcontra
    | false =>
      have hfil : List.filter f [n] = [] := by simp [hf]
      rw [hfil, List.append_nil, ih]
      constructor
      · rintro ⟨hfi, hlt, hmax⟩
        refine ⟨hfi, by omega, fun j h1 h2 => ?_⟩
        by_cases hjn : j = n
        · rw [hjn, hf]
        · exact hmax j h1 (by omega)
      · rintro ⟨hfi, hlt, hmax⟩
        have hi : i ≠ n := by
          intro he
          rw [he, hf] at hfi
          exact Bool.noConfusion hfi
        exact ⟨hfi, by omega, fun j h1 h2 => hmax j h1 (by omega)⟩

lemma lastPosWhere_none (f : Nat → Bool) (n : Nat) :
    lastPosWhere f n = none ↔ ∀ j, j < n → f j = false := by
  unfold lastPosWhere
  rw [List.getLast?_eq_none_iff, List.filter_eq_nil_iff]
  constructor
  · intro h j hj
    have hne := h j (List.mem_range.mpr hj)
    cases hfj : f j with
    | false => rfl
    | true => exact absurd hfj hne
  · intro h j hj
    rw [h j (List.mem_range.mp hj)]
    simp

lemma promiseValidAt_of_ge {cs : List Char} {j : Nat} (h : cs.length ≤ j) :
    promiseValidAt cs j = false := by
  unfold promiseValidAt
  rw [List.drop_eq_nil_of_le h]
  rfl

/-- Payload of the first marker-pair occurrence, as the specification
words describe the extraction. -/
def specFirstPromise (cs : List Char) : Option (List Char) :=
  (((List.range (cs.length + 1)).filter (promiseValidAt cs)).head?).map (promisePayloadAt cs)

/-- C6 counterexample: on a text with two marker pairs the sed extraction
captures the payload of the last pair, not the first — the greedy leading
`.*` is leftmost-longest, not non-greedy. -/
theorem c6_counterexample :
    sedPromiseExtract (flattenNl "<promise>first</promise><promise>second</promise>") =
      some ("second").data ∧
    specFirstPromise (flattenNl "<promise>first</promise><promise>second</promise>") =
      some ("first").data ∧
    sedPromiseExtract (flattenNl "<promise>first</promise><promise>second</promise>") ≠
      specFirstPromise (flattenNl "<promise>first</promise><promise>second</promise>") := by
  exact ⟨by decide, by decide, by decide⟩

/-- C6 (amended): the detector flattens newlines to spaces and extracts
the content strictly between a literal opening token and the first
subsequent closing token, but at the LAST position where such a pair
matches: the extraction yields `pl` exactly when some pair occurrence
has payload `pl` and no later occurrence exists. -/
theorem c6_last_occurrence (cs : List Char) (pl : List Char) :
    sedPromiseExtract cs = some pl ↔
      ∃ i, promiseValidAt cs i = true ∧ promisePayloadAt cs i = pl ∧
        ∀ j, i < j → promiseValidAt cs j = false := by
  unfold sedPromiseExtract
  cases hl : lastPosWhere (promiseValidAt cs) (cs.length + 1) with
  | none =>
    have hall := (lastPosWhere_none _ _).mp hl
    simp only [reduceCtorEq, false_iff]
    rintro ⟨i, hv, -, -⟩
    by_cases hi : i < cs.length + 1
    · rw [hall i hi] at hv
      exact Bool.noConfusion hv
    · rw [promiseValidAt_of_ge (by omega)] at hv
      exact Bool.noConfusion hv
  | some i =>
    have hspec := (lastPosWhere_spec (promiseValidAt cs) (cs.length + 1) i).mp hl
    constructor
    · intro h
      have hpl : promisePayloadAt cs i = pl := Option.some.inj h
      refine ⟨i, hspec.1, hpl, fun j hij => ?_⟩
      by_cases hj : j < cs.length + 1
      · exact hspec.2.2 j hij hj
      · exact promiseValidAt_of_ge (by omega)
    · rintro ⟨i', hv', hp', hmax'⟩
      have hii : i = i' := by
        by_contra hne
        rcases Nat.lt_or_ge i i' with hlt | hge
        · by_cases hi' : i' < cs.length + 1
          · rw [hspec.2.2 i' hlt hi'] at hv'
            exact Bool.noConfusion hv'
          · rw [promiseValidAt_of_ge (by omega)] at hv'
            exact Bool.noConfusion hv'
        · have hgt : i' < i := by omega
          have hc := hmax' i hgt
          rw [hspec.1] at hc
          exact Bool.noConfusion hc
      rw [← hii] at hp'
      exact congrArg some hp'

/-- The completion predicate exactly as the claim words it: extraction
succeeded with a non-empty payload, and payload and promise, EACH
normalized by removing all whitespace characters, are equal strings. -/
def c3ClaimRhs (text promise : String) : Bool :=
  match sedPromiseExtract (flattenNl text) with
  | none => false
  | some pl =>
    !pl.isEmpty
      && (pl.filter (fun c => !isPosixSpace c) == promise.data.filter (fun c => !isPosixSpace c))

/-- C3 counterexample: with a promise containing a tab, the claimed
both-sides whitespace normalization predicts a match, but the code strips
only spaces from the promise (`${COMPLETION_PROMISE// /}`) and reports no
match. -/
theorem c3_counterexample :
    c3ClaimRhs "<promise>ab</promise>" "a\tb" = true ∧
    promiseMatches "<promise>ab</promise>" "a\tb" = false := by
  exact ⟨by decide, by decide⟩

/-- C3 (amended): `matches` returns true iff extraction yields a payload
whose whitespace-free form is non-empty and equal to the promise with
only its SPACE characters removed (tabs and newlines in the promise are
kept by the bash expansion `${COMPLETION_PROMISE// /}`). -/
theorem c3_normalization (text promise : String) :
    promiseMatches text promise = true ↔
      ∃ pl, sedPromiseExtract (flattenNl text) = some pl ∧
        pl.filter (fun c => !isPosixSpace c) ≠ [] ∧
        (⟨pl.filter (fun c => !isPosixSpace c)⟩ : String) = removeSpaces promise := by
  unfold promiseMatches promiseTextOf
  cases he : sedPromiseExtract (flattenNl text) with
  | none =>
    simp
  | some pl =>
    simp only [Bool.and_eq_true, Bool.not_eq_true', beq_eq_false_iff_ne, ne_eq,
      beq_iff_eq, Option.some.injEq]
    constructor
    · rintro ⟨hne, heq⟩
      refine ⟨pl, rfl, fun hnil => hne ?_, heq⟩
      rw [hnil]
    · rintro ⟨pl', hpl', hnil, heq⟩
      have hp : pl = pl' := hpl'
      subst hp
      exact ⟨fun hemp => hnil (congrArg String.data hemp), heq⟩

/-- Modelled from the spec: a transcript entry is one structured record
per line carrying a `role` and an ordered sequence of content blocks; we
model the text blocks. -/
structure TranscriptEntry where
  role : String
  texts : List String
  deriving DecidableEq

/-- A character needing no JSON string escaping in our fragment: not a
double quote, backslash or newline. -/
def cleanChar (c : Char) : Bool :=
  !(c == '"') && !(c == '\\') && !(c == '\n')

/-- A string serialized verbatim inside a JSON string literal. -/
def cleanStr (s : String) : Bool :=
  s.data.all cleanChar

/-- Modelled from the spec: serialized form of one text content block. -/
def blockChars (t : String) : List Char :=
  ("\x7b\"type\":\"text\",\"text\":\"").data ++ (t.data ++ ("\"\x7d").data)

/-- Serialized content array elements, comma separated. -/
def contentChars : List String → List Char
  | [] => []
  | [t] => blockChars t
  | t :: t1 :: ts => blockChars t ++ ',' :: contentChars (t1 :: ts)

/-- Modelled from the spec: the serialized JSONL line of one transcript
entry. -/
def entryChars (e : TranscriptEntry) : List Char :=
  ("\x7b\"role\":\"").data ++ (e.role.data ++ (("\",\"content\":[").data
    ++ (contentChars e.texts ++ ("]\x7d").data)))

/-- The transcript line of an entry. -/
def serializeEntry (e : TranscriptEntry) : String :=
  ⟨entryChars e⟩

lemma rmDef : roleMarker = '"' :: 'r' :: 'o' :: 'l' :: 'e' :: '"' :: ':' :: '"'
    :: 'a' :: 's' :: 's' :: 'i' :: 's' :: 't' :: 'a' :: 'n' :: 't' :: '"' :: [] := rfl

lemma hasSubstr_iff (pat l : List Char) :
    hasSubstr pat l = true ↔ ∃ s, s <:+ l ∧ pat <+: s := by
  induction l with
  | nil =>
    simp only [hasSubstr, List.isEmpty_iff]
    constructor
    · intro h
      exact ⟨[], List.suffix_refl [], by rw [h]⟩
    · rintro ⟨s, hs, hp⟩
      rw [List.suffix_nil.mp hs] at hp
      exact List.prefix_nil.mp hp
  | cons c cs ih =>
    simp only [hasSubstr, Bool.or_eq_true, List.isPrefixOf_iff_prefix, ih]
    constructor
    · rintro (h | ⟨s, hs, hp⟩)
      · exact ⟨c :: cs, List.suffix_refl _, h⟩
      · exact ⟨s, hs.trans (List.suffix_cons c cs), hp⟩
    · rintro ⟨s, hs, hp⟩
      rcases List.suffix_cons_iff.mp hs with rfl | hs1
      · exact Or.inl hp
      · exact Or.inr ⟨s, hs1, hp⟩

/-- No occurrence of the role marker anywhere in the character list. -/
def noRM (l : List Char) : Prop :=
  ∀ s, s <:+ l → ¬roleMarker <+: s

lemma suffix_append_cases {α : Type} {s a b : List α} (h : s <:+ a ++ b) :
    s <:+ b ∨ ∃ c, c <:+ a ∧ c ≠ [] ∧ s = c ++ b := by
  induction a with
  | nil => exact Or.inl (by simpa using h)
  | cons x xs ih =>
    rw [List.cons_append] at h
    rcases List.suffix_cons_iff.mp h with rfl | h1
    · exact Or.inr ⟨x :: xs, List.suffix_refl _, by simp, by simp⟩
    · rcases ih h1 with h2 | ⟨c, hc1, hc2, hc3⟩
      · exact Or.inl h2
      · exact Or.inr ⟨c, hc1.trans (List.suffix_cons x xs), hc2, hc3⟩

lemma noRM_nil : noRM [] := by
  intro s hs hp
  rw [List.suffix_nil.mp hs] at hp
  have h2 := List.prefix_nil.mp hp
  rw [rmDef] at h2
  exact List.noConfusion h2

lemma noRM_append {a b : List Char} (hb : noRM b)
    (ha : ∀ c, c <:+ a → c ≠ [] → ¬roleMarker <+: (c ++ b)) :
    noRM (a ++ b) := by
  intro s hs hp
  rcases suffix_append_cases hs with h | ⟨c, h1, h2, rfl⟩
  · exact hb s h hp
  · exact ha c h1 h2 hp

lemma noRM_cons {c : Char} {l : List Char} (hne : ¬roleMarker <+: (c :: l))
    (h : noRM l) : noRM (c :: l) := by
  intro s hs hp
  rcases List.suffix_cons_iff.mp hs with rfl | hs1
  · exact hne hp
  · exact h s hs1 hp

lemma not_rm_head {c : Char} (hc : (c == '"') = false) (l : List Char) :
    ¬roleMarker <+: (c :: l) := by
  intro h
  rw [rmDef] at h
  rcases List.cons_prefix_cons.mp h with ⟨h1, -⟩
  rw [← h1] at hc
  exact absurd hc (by decide)

lemma not_rm_two {c : Char} (hc : (c == 'r') = false) (l : List Char) :
    ¬roleMarker <+: ('"' :: c :: l) := by
  intro h
  rw [rmDef] at h
  rcases List.cons_prefix_cons.mp h with ⟨-, h2⟩
  rcases List.cons_prefix_cons.mp h2 with ⟨h3, -⟩
  rw [← h3] at hc
  exact absurd hc (by decide)

/-- Quote-free character lists. -/
def noQuote (l : List Char) : Prop :=
  ∀ c ∈ l, (c == '"') = false

instance (l : List Char) : Decidable (noQuote l) := by
  unfold noQuote
  infer_instance

lemma cleanStr_noQuote {s : String} (h : cleanStr s = true) : noQuote s.data := by
  intro c hc
  have h1 := List.all_eq_true.mp h c hc
  unfold cleanChar at h1
  cases hcq : (c == '"') with
  | false => rfl
  | true => rw [hcq] at h1; exact Bool.noConfusion h1

lemma clean_quote_prefix {w r : List Char} (hw : noQuote w) (hr : noQuote r)
    {t u : List Char} (h : (w ++ '"' :: t) <+: (r ++ '"' :: u)) : w = r ∧ t <+: u := by
  induction w generalizing r with
  | nil =>
    cases r with
    | nil =>
      rw [List.nil_append, List.nil_append] at h
      exact ⟨rfl, (List.cons_prefix_cons.mp h).2⟩
    | cons d r1 =>
      rw [List.nil_append, List.cons_append] at h
      rcases List.cons_prefix_cons.mp h with ⟨h1, -⟩
      have hd := hr d (List.mem_cons_self d r1)
      rw [← h1] at hd
      exact absurd hd (by decide)
  | cons a w1 ih =>
    cases r with
    | nil =>
      rw [List.nil_append, List.cons_append] at h
      rcases List.cons_prefix_cons.mp h with ⟨h1, -⟩
      have ha := hw a (List.mem_cons_self a w1)
      rw [h1] at ha
      exact absurd ha (by decide)
    | cons d r1 =>
      rw [List.cons_append, List.cons_append] at h
      rcases List.cons_prefix_cons.mp h with ⟨h1, h2⟩
      have hw1 : noQuote w1 := fun c hc => hw c (List.mem_cons_of_mem a hc)
      have hr1 : noQuote r1 := fun c hc => hr c (List.mem_cons_of_mem d hc)
      rcases ih hw1 hr1 h2 with ⟨he, ht⟩
      exact ⟨by rw [h1, he], ht⟩

lemma noRM_from_clean {w : List Char} (hw : noQuote w) (b : List Char) :
    ∀ c, c <:+ w → c ≠ [] → ¬roleMarker <+: (c ++ b) := by
  intro c hsuf hne
  cases c with
  | nil => exact absurd rfl hne
  | cons x rest =>
    have hx : (x == '"') = false := hw x (hsuf.sublist.subset (List.mem_cons_self x rest))
    rw [List.cons_append]
    exact not_rm_head hx _

lemma noRM_prepend_clean {w l : List Char} (hw : noQuote w) (h : noRM l) :
    noRM (w ++ l) :=
  noRM_append h (noRM_from_clean hw l)

lemma not_rm_text_open {t : String} (ht : cleanStr t = true) (k : List Char) :
    ¬roleMarker <+: ('"' :: (t.data ++ '"' :: '}' :: k)) := by
  intro h
  rw [rmDef] at h
  rcases List.cons_prefix_cons.mp h with ⟨-, h2⟩
  have h3 : (("role").data ++ '"' :: (':' :: '"' :: (("assistant").data ++ ['"']))) <+:
      (t.data ++ '"' :: ('}' :: k)) := h2
  rcases clean_quote_prefix (by decide) (cleanStr_noQuote ht) h3 with ⟨-, h4⟩
  rcases List.cons_prefix_cons.mp h4 with ⟨h5, -⟩
  exact absurd h5 (by decide)

lemma prefix_append_cancel {α : Type} {x y z : List α} (h : (x ++ y) <+: (x ++ z)) :
    y <+: z := by
  rcases h with ⟨t, ht⟩
  rw [List.append_assoc] at ht
  exact ⟨t, List.append_cancel_left ht⟩

lemma not_rm_role_open {role : String} (hr : cleanStr role = true) (rest : List Char) :
    ¬roleMarker <+: ('"' :: (role.data ++ '"' :: ',' :: rest)) := by
  intro h
  rw [rmDef] at h
  rcases List.cons_prefix_cons.mp h with ⟨-, h2⟩
  have h3 : (("role").data ++ '"' :: (':' :: '"' :: (("assistant").data ++ ['"']))) <+:
      (role.data ++ '"' :: (',' :: rest)) := h2
  rcases clean_quote_prefix (by decide) (cleanStr_noQuote hr) h3 with ⟨-, h4⟩
  rcases List.cons_prefix_cons.mp h4 with ⟨h5, -⟩
  exact absurd h5 (by decide)

lemma not_rm_role_key {role : String} (hr : cleanStr role = true)
    (hne : role ≠ "assistant") (rest : List Char) :
    ¬roleMarker <+: ('"' :: (("role").data
      ++ ('"' :: ':' :: '"' :: (role.data ++ '"' :: rest)))) := by
  intro h
  have h2 : (('"' :: 'r' :: 'o' :: 'l' :: 'e' :: '"' :: ':' :: '"' :: [])
        ++ (("assistant").data ++ ['"'])) <+:
      (('"' :: 'r' :: 'o' :: 'l' :: 'e' :: '"' :: ':' :: '"' :: [])
        ++ (role.data ++ '"' :: rest)) := h
  have h3 := prefix_append_cancel h2
  rcases clean_quote_prefix (by decide) (cleanStr_noQuote hr)
      (show (("assistant").data ++ '"' :: ([] : List Char)) <+:
        (role.data ++ '"' :: rest) from h3) with ⟨h4, -⟩
  exact hne (String.ext h4.symm)

/-- The 23-character block head `{"type":"text","text":"` creates no
marker occurrence, whatever follows the inner quote. -/
lemma noRM_bpre {X : List Char} (h2 : noRM ('"' :: X)) :
    noRM (("\x7b\"type\":\"text\",\"text\":\"").data ++ X) := by
  have a3 : noRM (':' :: '"' :: X) := noRM_cons (not_rm_head (by decide) _) h2
  have a4 : noRM ('"' :: ':' :: '"' :: X) := noRM_cons (not_rm_two (by decide) _) a3
  have a5 : noRM (("text").data ++ '"' :: ':' :: '"' :: X) :=
    noRM_prepend_clean (by decide) a4
  have a6 : noRM ('"' :: (("text").data ++ '"' :: ':' :: '"' :: X)) :=
    noRM_cons (not_rm_two (by decide) _) a5
  have a7 : noRM (',' :: '"' :: (("text").data ++ '"' :: ':' :: '"' :: X)) :=
    noRM_cons (not_rm_head (by decide) _) a6
  have a8 : noRM ('"' :: ',' :: '"' :: (("text").data ++ '"' :: ':' :: '"' :: X)) :=
    noRM_cons (not_rm_two (by decide) _) a7
  have a9 : noRM (("text").data
      ++ '"' :: ',' :: '"' :: (("text").data ++ '"' :: ':' :: '"' :: X)) :=
    noRM_prepend_clean (by decide) a8
  have a10 : noRM ('"' :: (("text").data
      ++ '"' :: ',' :: '"' :: (("text").data ++ '"' :: ':' :: '"' :: X))) :=
    noRM_cons (not_rm_two (by decide) _) a9
  have a11 : noRM (':' :: '"' :: (("text").data
      ++ '"' :: ',' :: '"' :: (("text").data ++ '"' :: ':' :: '"' :: X))) :=
    noRM_cons (not_rm_head (by decide) _) a10
  have a12 : noRM ('"' :: ':' :: '"' :: (("text").data
      ++ '"' :: ',' :: '"' :: (("text").data ++ '"' :: ':' :: '"' :: X))) :=
    noRM_cons (not_rm_two (by decide) _) a11
  have a13 : noRM (("type").data ++ '"' :: ':' :: '"' :: (("text").data
      ++ '"' :: ',' :: '"' :: (("text").data ++ '"' :: ':' :: '"' :: X))) :=
    noRM_prepend_clean (by decide) a12
  have a14 : noRM ('"' :: (("type").data ++ '"' :: ':' :: '"' :: (("text").data
      ++ '"' :: ',' :: '"' :: (("text").data ++ '"' :: ':' :: '"' :: X)))) :=
    noRM_cons (not_rm_two (by decide) _) a13
  have a15 : noRM ('\x7b' :: '"' :: (("type").data ++ '"' :: ':' :: '"' :: (("text").data
      ++ '"' :: ',' :: '"' :: (("text").data ++ '"' :: ':' :: '"' :: X)))) :=
    noRM_cons (not_rm_head (by decide) _) a14
  exact a15

lemma noRM_block {t : String} (ht : cleanStr t = true) {k : List Char} (hk : noRM k) :
    noRM (blockChars t ++ k) := by
  have k1 : noRM ('}' :: k) := noRM_cons (not_rm_head (by decide) _) hk
  have k2 : noRM ('"' :: '}' :: k) := noRM_cons (not_rm_two (by decide) _) k1
  have k3 : noRM (t.data ++ '"' :: '}' :: k) :=
    noRM_prepend_clean (cleanStr_noQuote ht) k2
  have k4 : noRM ('"' :: (t.data ++ '"' :: '}' :: k)) :=
    noRM_cons (not_rm_text_open ht k) k3
  have heq : blockChars t ++ k
      = ("\x7b\"type\":\"text\",\"text\":\"").data ++ (t.data ++ ('"' :: '}' :: k)) := by
    unfold blockChars
    simp [List.append_assoc]
  rw [heq]
  exact noRM_bpre k4

lemma noRM_contentChars {ts : List String} (hts : ∀ t ∈ ts, cleanStr t = true)
    {k : List Char} (hk : noRM k) : noRM (contentChars ts ++ k) := by
  induction ts with
  | nil => simpa using hk
  | cons t ts ih =>
    cases ts with
    | nil => exact noRM_block (hts t (List.mem_cons_self t [])) hk
    | cons t1 ts1 =>
      have hrest : noRM (contentChars (t1 :: ts1) ++ k) :=
        ih (fun x hx => hts x (List.mem_cons_of_mem t hx))
      have hcomma : noRM (',' :: (contentChars (t1 :: ts1) ++ k)) :=
        noRM_cons (not_rm_head (by decide) _) hrest
      have heq : contentChars (t :: t1 :: ts1) ++ k
          = blockChars t ++ (',' :: (contentChars (t1 :: ts1) ++ k)) := by
        show (blockChars t ++ ',' :: contentChars (t1 :: ts1)) ++ k = _
        simp [List.append_assoc]
      rw [heq]
      exact noRM_block (hts t (List.mem_cons_self t _)) hcomma

lemma noRM_entry {e : TranscriptEntry} (hr : cleanStr e.role = true)
    (hts : ∀ t ∈ e.texts, cleanStr t = true) (hne : e.role ≠ "assistant") :
    noRM (entryChars e) := by
  have b1 : noRM ['}'] := noRM_cons (not_rm_head (by decide) _) noRM_nil
  have b2 : noRM [']', '}'] := noRM_cons (not_rm_head (by decide) _) b1
  have b3 : noRM (contentChars e.texts ++ [']', '}']) := noRM_contentChars hts b2
  have c1 : noRM ('[' :: (contentChars e.texts ++ [']', '}'])) :=
    noRM_cons (not_rm_head (by decide) _) b3
  have c2 : noRM (':' :: '[' :: (contentChars e.texts ++ [']', '}'])) :=
    noRM_cons (not_rm_head (by decide) _) c1
  have c3 : noRM ('"' :: ':' :: '[' :: (contentChars e.texts ++ [']', '}'])) :=
    noRM_cons (not_rm_two (by decide) _) c2
  have c4 : noRM (("content").data
      ++ '"' :: ':' :: '[' :: (contentChars e.texts ++ [']', '}'])) :=
    noRM_prepend_clean (by decide) c3
  have c5 : noRM ('"' :: (("content").data
      ++ '"' :: ':' :: '[' :: (contentChars e.texts ++ [']', '}']))) :=
    noRM_cons (not_rm_two (by decide) _) c4
  have c6 : noRM (',' :: '"' :: (("content").data
      ++ '"' :: ':' :: '[' :: (contentChars e.texts ++ [']', '}']))) :=
    noRM_cons (not_rm_head (by decide) _) c5
  have c7 : noRM ('"' :: ',' :: '"' :: (("content").data
      ++ '"' :: ':' :: '[' :: (contentChars e.texts ++ [']', '}']))) :=
    noRM_cons (not_rm_two (by decide) _) c6
  have d1 : noRM (e.role.data ++ '"' :: ',' :: '"' :: (("content").data
      ++ '"' :: ':' :: '[' :: (contentChars e.texts ++ [']', '}']))) :=
    noRM_prepend_clean (cleanStr_noQuote hr) c7
  have e1 : noRM ('"' :: (e.role.data ++ '"' :: ',' :: '"' :: (("content").data
      ++ '"' :: ':' :: '[' :: (contentChars e.texts ++ [']', '}'])))) :=
    noRM_cons (not_rm_role_open hr _) d1
  have e2 : noRM (':' :: '"' :: (e.role.data ++ '"' :: ',' :: '"' :: (("content").data
      ++ '"' :: ':' :: '[' :: (contentChars e.texts ++ [']', '}'])))) :=
    noRM_cons (not_rm_head (by decide) _) e1
  have e3 : noRM ('"' :: ':' :: '"' :: (e.role.data
      ++ '"' :: ',' :: '"' :: (("content").data
      ++ '"' :: ':' :: '[' :: (contentChars e.texts ++ [']', '}'])))) :=
    noRM_cons (not_rm_two (by decide) _) e2
  have e4 : noRM (("role").data ++ '"' :: ':' :: '"' :: (e.role.data
      ++ '"' :: ',' :: '"' :: (("content").data
      ++ '"' :: ':' :: '[' :: (contentChars e.texts ++ [']', '}'])))) :=
    noRM_prepend_clean (by decide) e3
  have e5 : noRM ('"' :: (("role").data ++ '"' :: ':' :: '"' :: (e.role.data
      ++ '"' :: ',' :: '"' :: (("content").data
      ++ '"' :: ':' :: '[' :: (contentChars e.texts ++ [']', '}']))))) := by
    refine noRM_cons ?_ e4
    have hkey := not_rm_role_key hr hne (',' :: '"' :: (("content").data
      ++ '"' :: ':' :: '[' :: (contentChars e.texts ++ [']', '}'])))
    exact hkey
  have e6 : noRM ('\x7b' :: '"' :: (("role").data ++ '"' :: ':' :: '"' :: (e.role.data
      ++ '"' :: ',' :: '"' :: (("content").data
      ++ '"' :: ':' :: '[' :: (contentChars e.texts ++ [']', '}']))))) :=
    noRM_cons (not_rm_head (by decide) _) e5
  exact e6

lemma entry_marker (e : TranscriptEntry) (hr : cleanStr e.role = true)
    (hts : ∀ t ∈ e.texts, cleanStr t = true) :
    isAssistantLine (serializeEntry e) = (e.role == "assistant") := by
  by_cases ha : e.role = "assistant"
  · have hb : (e.role == "assistant") = true := by rw [ha]; rfl
    rw [hb]
    show hasSubstr roleMarker (entryChars e) = true
    unfold entryChars
    rw [ha]
    refine (hasSubstr_iff _ _).mpr ⟨("\"role\":\"").data ++ (("assistant").data
      ++ (("\",\"content\":[").data ++ (contentChars e.texts ++ ("]\x7d").data))), ?_, ?_⟩
    · exact List.suffix_cons '\x7b' _
    · exact ⟨(",\"content\":[").data ++ (contentChars e.texts ++ ("]\x7d").data), rfl⟩
  · have hb : (e.role == "assistant") = false := beq_eq_false_iff_ne.mpr ha
    rw [hb]
    show hasSubstr roleMarker (entryChars e) = false
    cases hs : hasSubstr roleMarker (entryChars e) with
    | false => rfl
    | true =>
      rcases (hasSubstr_iff _ _).mp hs with ⟨s, hsuf, hpre⟩
      exact absurd hpre (noRM_entry hr hts ha s hsuf)

/-- C8: for every transcript of serialized entries (clean strings), the
grep-based selection retains exactly the entries whose structured `role`
field is `assistant`; it fails if and only if no entry has that role, and
otherwise the selected line is the serialization of the LAST such entry
(later duplicates shadow earlier ones, no other tie-break). -/
theorem c8_last_assistant (ts : List TranscriptEntry)
    (hclean : ∀ e ∈ ts, cleanStr e.role = true ∧ ∀ t ∈ e.texts, cleanStr t = true) :
    assistantLines (ts.map serializeEntry) =
      (ts.filter (fun e => e.role == "assistant")).map serializeEntry ∧
    (assistantLines (ts.map serializeEntry) = [] ↔ ∀ e ∈ ts, e.role ≠ "assistant") ∧
    (assistantLines (ts.map serializeEntry)).getLast? =
      ((ts.filter (fun e => e.role == "assistant")).getLast?).map serializeEntry := by
  have h1 : assistantLines (ts.map serializeEntry)
      = (ts.filter (fun e => isAssistantLine (serializeEntry e))).map serializeEntry := by
    unfold assistantLines
    exact List.filter_map serializeEntry ts
  have h2 : ts.filter (fun e => isAssistantLine (serializeEntry e))
      = ts.filter (fun e => e.role == "assistant") :=
    List.filter_congr (fun e he => entry_marker e (hclean e he).1 (hclean e he).2)
  rw [h1, h2]
  refine ⟨rfl, ?_, ?_⟩
  · constructor
    · intro hnil e he hassist
      have hflt : ts.filter (fun e => e.role == "assistant") = [] := by
        cases hft : ts.filter (fun e => e.role == "assistant") with
        | nil => rfl
        | cons x xs =>
          rw [hft] at hnil
          exact List.noConfusion hnil
      have hf := List.filter_eq_nil_iff.mp hflt e he
      apply hf
      rw [hassist]
      rfl
    · intro hall
      have hflt : ts.filter (fun e => e.role == "assistant") = [] :=
        List.filter_eq_nil_iff.mpr (fun e he hbeq => hall e he (eq_of_beq hbeq))
      rw [hflt]
      rfl
  · exact List.getLast?_map _ _

theorem c8_last_assistant_witness :
    (∀ e ∈ [TranscriptEntry.mk "user" ["hello"], TranscriptEntry.mk "assistant" ["first"],
        TranscriptEntry.mk "assistant" ["second"]],
      cleanStr e.role = true ∧ ∀ t ∈ e.texts, cleanStr t = true) ∧
    (assistantLines (([TranscriptEntry.mk "user" ["hello"],
        TranscriptEntry.mk "assistant" ["first"],
        TranscriptEntry.mk "assistant" ["second"]]).map serializeEntry)).getLast? =
      ((([TranscriptEntry.mk "user" ["hello"], TranscriptEntry.mk "assistant" ["first"],
        TranscriptEntry.mk "assistant" ["second"]]).filter
          (fun e => e.role == "assistant")).getLast?).map serializeEntry :=
  ⟨by decide,
    (c8_last_assistant [TranscriptEntry.mk "user" ["hello"],
      TranscriptEntry.mk "assistant" ["first"],
      TranscriptEntry.mk "assistant" ["second"]] (by decide)).2.2⟩

end RalphLoop
